import Mathlib

/-!
Shallow embedding of `src/types/complex-types/array.ts` (mobx-state-tree ArrayType):
the ordered-collection node, its interception (`willChange`) and observation
(`didChange`) hooks, patch application, and the two reconciliation algorithms
(`reconcileUnkeyedArrayItems`, `reconcileArrayItems`).

External collaborators (the MST node administration and mobx) are represented
explicitly: `prepareChild` is a function parameter `pc` whose calls are logged,
`setParent` calls and `emitPatch` calls are logged as `Event`s, and the
intercept/observe wiring of mobx becomes the `performChange` pipeline
(pre-commit hook, commit, post-commit hook).
-/

set_option linter.unusedVariables false

namespace MST

/-- Record content of a live node: a stable runtime identity `ref` (standing for the
JavaScript object reference) plus named fields. -/
structure NodeData where
  ref : Nat
  fields : List (String × String)
  deriving DecidableEq, Repr

/-- A runtime value held in an array slot: a scalar, a live MST node, a plain raw
object (snapshot data not yet materialized), or JS `undefined`. -/
inductive Val where
  | prim (s : String)
  | node (d : NodeData)
  | raw (fields : List (String × String))
  | undef
  deriving DecidableEq, Repr

/-- Source `valueToSnapshot` (core): a node serializes to its plain field content,
anything else passes through unchanged. -/
def valueToSnapshot : Val → Val
  | .node d => .raw d.fields
  | v => v

/-- Source `maybeMST`: yields the node administration of a value when the value is a
live node, nothing otherwise. -/
def maybeMSTRef : Val → Option NodeData
  | .node d => some d
  | _ => none

/-- JS property read `item[attr]`, used for the identifier attribute; `none` stands
for `undefined`. -/
def getAttr (attr : String) : Val → Option String
  | .node d => d.fields.lookup attr
  | .raw f => f.lookup attr
  | _ => none

/-- Plain field content of a snapshot value. -/
def snapFieldsOf : Val → List (String × String)
  | .raw f => f
  | .node d => d.fields
  | _ => []

/-- A JSON patch record, `op` being an open string exactly as in the source. -/
structure Patch where
  op : String
  path : String
  value : Option Val := none
  deriving DecidableEq, Repr

/-- Observable calls into the external node administration, in call order:
`prepareChild`, `setParent(null)` (detach), `setParent(node, path)` (reindex),
and `emitPatch`. -/
inductive Event where
  | prepareChild (path : String) (value : Val) (reconcileExisting : Bool)
  | detach (ref : Nat)
  | reindex (ref : Nat) (path : String)
  | emitPatch (p : Patch)
  deriving DecidableEq, Repr

/-- Patches emitted in an event log. -/
def patchesOf (evs : List Event) : List Patch :=
  evs.filterMap fun e => match e with | .emitPatch p => some p | _ => none

/-- Arguments of the `prepareChild` calls in an event log. -/
def preparesOf (evs : List Event) : List (String × Val × Bool) :=
  evs.filterMap fun e => match e with | .prepareChild p v r => some (p, v, r) | _ => none

/-- Refs of nodes detached (`setParent(null)`) in an event log. -/
def detachesOf (evs : List Event) : List Nat :=
  evs.filterMap fun e => match e with | .detach r => some r | _ => none

/-- Ref and path pairs of `setParent(node, path)` re-registrations in an event log. -/
def reindexesOf (evs : List Event) : List (Nat × String) :=
  evs.filterMap fun e => match e with | .reindex r p => some (r, p) | _ => none

/-- A mobx array change record: a single-slot update or a splice. -/
inductive ArrayChange where
  | update (index : Nat) (newValue : Val)
  | splice (index : Nat) (removedCount : Nat) (added : List Val)
  deriving DecidableEq, Repr

/-- Source `reconcileUnkeyedArrayItems`: positional reconciliation of a splice.
The external `node.prepareChild` is the parameter `pc`; every external call the
source makes (`setParent`, `prepareChild`) is also recorded, in call order, in the
returned event log. Returns the new `added` payload together with that log. -/
def reconcileUnkeyedArrayItems (pc : String → Val → Bool → Val)
    (target : List Val) (index : Nat) (added : List Val) (removedCount : Nat) :
    List Val × List Event :=
  let reconcilableCount := min removedCount added.length
  let dropEvents :=
    if reconcilableCount < removedCount then
      (((target.drop (index + reconcilableCount)).take (removedCount - reconcilableCount)).map
        fun oldValue => (maybeMSTRef oldValue).map fun adm => Event.detach adm.ref).filterMap id
    else []
  let delta : Int := (added.length : Int) - (removedCount : Int)
  let reindexEvents :=
    ((target.drop (index + removedCount)).mapIdx
      fun idx oldValue => (maybeMSTRef oldValue).map fun adm =>
        Event.reindex adm.ref (toString (((index + removedCount + idx : Nat) : Int) + delta))).filterMap id
  let reconciled := (added.take reconcilableCount).mapIdx
    fun pos newValue => pc (toString (index + pos)) newValue true
  let created := (added.drop reconcilableCount).mapIdx
    fun pos newValue => pc (toString (index + pos + reconcilableCount)) newValue false
  let prepEvents :=
    (added.take reconcilableCount).mapIdx
      (fun pos newValue => Event.prepareChild (toString (index + pos)) newValue true) ++
    (added.drop reconcilableCount).mapIdx
      (fun pos newValue => Event.prepareChild (toString (index + pos + reconcilableCount)) newValue false)
  (reconciled ++ created, dropEvents ++ reindexEvents ++ prepEvents)

/-- Source `ArrayType.willChange`: the pre-commit interception hook. Asserts
writability, vetoes identical single-slot updates, prepares updated values, and
substitutes the splice payload by unkeyed reconciliation. Returns the transformed
change (`none` = veto) and the log of external calls made. -/
def willChange (pc : String → Val → Bool → Val) (writable : Bool)
    (target : List Val) (change : ArrayChange) :
    Except String (Option ArrayChange × List Event) :=
  if writable then
    match change with
    | .update index newValue =>
        let oldValue := target.getD index Val.undef
        if newValue = oldValue then .ok (none, [])
        else .ok (some (.update index (pc (toString index) newValue true)),
                  [Event.prepareChild (toString index) newValue true])
    | .splice index removedCount added =>
        let r := reconcileUnkeyedArrayItems pc target index added removedCount
        .ok (some (.splice index removedCount r.1), r.2)
  else .error "the object is protected and can only be modified from model actions"

/-- Committing an intercepted change to the underlying array. -/
def commitChange (target : List Val) : ArrayChange → List Val
  | .update index newValue => target.set index newValue
  | .splice index removedCount added =>
      target.take index ++ added ++ target.drop (index + removedCount)

/-- Descending remove-patch loop of `didChange`:
`for (let i = index + removedCount - 1; i >= index; i--)`. -/
def emitRemoves (index : Nat) : Nat → List Patch
  | 0 => []
  | k + 1 => { op := "remove", path := toString (index + k) } :: emitRemoves index k

/-- Source `ArrayType.didChange`: the post-commit observation hook, translating the
committed change into emitted patches. -/
def didChange (change : ArrayChange) : List Event :=
  match change with
  | .update index newValue =>
      [Event.emitPatch { op := "replace", path := toString index,
                         value := some (valueToSnapshot newValue) }]
  | .splice index removedCount added =>
      (emitRemoves index removedCount).map Event.emitPatch ++
      (List.range added.length).map fun i =>
        Event.emitPatch { op := "add", path := toString (index + i),
                          value := some (valueToSnapshot (added.getD i Val.undef)) }

/-- One full edit of the intercepted observable array: `willChange` (pre-commit),
commit, `didChange` (post-commit). A veto (`none`) skips commit and observation. -/
def performChange (pc : String → Val → Bool → Val) (writable : Bool)
    (target : List Val) (change : ArrayChange) :
    Except String (List Val × List Event) :=
  match willChange pc writable target change with
  | .error e => .error e
  | .ok (none, evs) => .ok (target, evs)
  | .ok (some committed, evs) =>
      .ok (commitChange target committed, evs ++ didChange committed)

/-- mobx `splice` call normalization: the change record reports the clamped start
index and the count of elements actually removed. -/
def spliceChange (target : List Val) (index removedCount : Nat) (added : List Val) :
    ArrayChange :=
  let i := min index target.length
  .splice i (min removedCount (target.length - i)) added

/-- Accumulating digit loop of JS `parseInt` (base 10): consumes leading decimal
digits, stopping at the first non-digit. -/
def parseIntChars (acc : Nat) : List Char → Nat
  | [] => acc
  | c :: cs => if c.isDigit then parseIntChars (acc * 10 + (c.toNat - 48)) cs else acc

/-- JS `parseInt(s, 10)` on trusted index strings: `none` stands for `NaN` (no
leading digit). -/
def parseIndex (s : String) : Option Nat :=
  match s.data with
  | [] => none
  | c :: cs => if c.isDigit then some (parseIntChars 0 (c :: cs)) else none

/-- Source `ArrayType.applyPatchLocally`: resolves the subpath (`"-"` meaning the
container length, otherwise a trusted decimal index) and mutates the live target
with a plain slot write or `splice`. The target is the intercepted observable
array, so each mutation routes through the `performChange` pipeline; an
unrecognized `op` falls through the `switch` and does nothing. -/
def applyPatchLocally (pc : String → Val → Bool → Val) (writable : Bool)
    (target : List Val) (subpath : String) (patch : Patch) :
    Except String (List Val × List Event) :=
  let index := if subpath = "-" then target.length else (parseIndex subpath).getD 0
  match patch.op with
  | "replace" => performChange pc writable target (.update index (patch.value.getD Val.undef))
  | "add" => performChange pc writable target
      (spliceChange target index 0 [patch.value.getD Val.undef])
  | "remove" => performChange pc writable target (spliceChange target index 1 [])
  | _ => .ok (target, [])

/-- The identifier-to-child map-building loop of `reconcileArrayItems`, the
`invariant` failure surfacing as `Except.error`. Keys are the JS property values,
`none` standing for `undefined`. -/
def buildCurrent (identifierAttr : String) :
    List Val → List (Option String × Val) → Except String (List (Option String × Val))
  | [], current => .ok current
  | item :: rest, current =>
      let id := getAttr identifierAttr item
      if (current.lookup id).isSome then .error "Identifier is not unique!"
      else buildCurrent identifierAttr rest (current ++ [(id, item)])

/-- Source `reconcileArrayItems`: identity-based reconciliation for whole-snapshot
replacement. External collaborators are parameters: `getTypeIs` stands for
`getType(existing).is(item)`, `applySnap` for the core `applySnapshot(existing, item)`
returning the in-place-mutated child, `create` for `factory.create`. -/
def reconcileArrayItems (identifierAttr : String)
    (getTypeIs : Val → Val → Bool) (applySnap : Val → Val → Val) (create : Val → Val)
    (target : List Val) (snapshot : List Val) : Except String (List Val) :=
  match buildCurrent identifierAttr target [] with
  | .error e => .error e
  | .ok current =>
      .ok (snapshot.map fun item =>
        match current.lookup (getAttr identifierAttr item) with
        | some existing =>
            if getTypeIs existing item then applySnap existing item else create item
        | none => create item)

/-- Source `ArrayType.applySnapshot`: with an identifier attribute, identity-based
reconciliation then `target.replace(...)`; otherwise the snapshot is substituted
verbatim. `target.replace(items)` is a full-range splice on the intercepted array,
so it routes through the `performChange` pipeline. -/
def applySnapshotType (identifierAttr : Option String)
    (getTypeIs : Val → Val → Bool) (applySnap : Val → Val → Val) (create : Val → Val)
    (pc : String → Val → Bool → Val) (writable : Bool)
    (target : List Val) (snapshot : List Val) : Except String (List Val × List Event) :=
  match identifierAttr with
  | some attr =>
      match reconcileArrayItems attr getTypeIs applySnap create target snapshot with
      | .error e => .error e
      | .ok items => performChange pc writable target (.splice 0 target.length items)
  | none => performChange pc writable target (.splice 0 target.length snapshot)

/-- Source `ArrayType.finalizeNewInstance` on the fresh empty instance produced by
`createNewInstance`: intercept and observe are wired first, then the node
administration's `applySnapshot` populates the container (modelled from the spec:
the administration routes snapshot application to the type's `applySnapshot`). -/
def hydrate (identifierAttr : Option String)
    (getTypeIs : Val → Val → Bool) (applySnap : Val → Val → Val) (create : Val → Val)
    (pc : String → Val → Bool → Val) (writable : Bool)
    (snapshot : List Val) : Except String (List Val × List Event) :=
  applySnapshotType identifierAttr getTypeIs applySnap create pc writable [] snapshot

/-- Modelled from the spec: the core `applySnapshot(existing, item)` performs
"recursive snapshot application preserving identity" — the runtime reference of the
existing node survives and its content becomes the snapshot's content. -/
def applySnapModel : Val → Val → Val
  | .node d, s => .node { ref := d.ref, fields := snapFieldsOf s }
  | v, _ => v

/-- Trivial `prepareChild` semantics for scalar element types: the prepared value is
the raw value itself (scalars are not materialized into nodes). -/
def pcId : String → Val → Bool → Val := fun _ v _ => v

/-- Example `factory.create` semantics: a brand-new node (fresh runtime reference 99)
holding the snapshot's fields. -/
def createFresh : Val → Val := fun s => .node { ref := 99, fields := snapFieldsOf s }

end MST

deriving instance DecidableEq for Except

namespace MST

/-! Helper lemmas shared by the claim theorems. -/

/-- The descending remove loop emits the range `index + k` for `k = r-1 … 0`. -/
theorem emitRemoves_eq (i r : Nat) : emitRemoves i r =
    (List.range r).reverse.map fun k => ({ op := "remove", path := toString (i + k) } : Patch) := by
  induction r with
  | zero => rfl
  | succ r ih => rw [emitRemoves, List.range_succ]; simp [ih]

/-- An index-driven loop over a list written with `range`/`getD` is a `mapIdx`. -/
theorem range_map_getD_eq_mapIdx {α β : Type} (l : List α) (f : Nat → α → β) (d : α) :
    (List.range l.length).map (fun k => f k (l.getD k d)) = l.mapIdx f := by
  symm
  rw [List.mapIdx_eq_iff]
  intro i
  by_cases h : i < l.length
  · simp [List.getElem?_range h, List.getD_eq_getElem?_getD, List.getElem?_eq_getElem h]
  · have h1 : l[i]? = none := by rw [List.getElem?_eq_none_iff]; omega
    have h2 : (List.range l.length)[i]? = none := by
      rw [List.getElem?_eq_none_iff, List.length_range]; omega
    simp [h1, h2]

/-- C1: a committed splice at index `i` with `removedCount` `r` and added elements
`added` is observed as `r` remove patches at paths `i+r-1 … i` (descending) followed
by one add patch per added element at paths `i … i+added.length-1` (ascending), each
carrying the added element's own snapshot; in particular splicing 2 out and 3 in at
index 1 of `[a,b,c,d]` emits remove 2, remove 1, add 1, add 2, add 3. -/
theorem c1_splice_patch_emission :
    (∀ (i r : Nat) (added : List Val),
      didChange (.splice i r added) =
        ((List.range r).reverse.map fun k =>
          Event.emitPatch { op := "remove", path := toString (i + k) }) ++
        added.mapIdx fun k v =>
          Event.emitPatch { op := "add", path := toString (i + k),
                            value := some (valueToSnapshot v) }) ∧
    performChange pcId true [Val.prim "a", Val.prim "b", Val.prim "c", Val.prim "d"]
        (.splice 1 2 [Val.prim "x", Val.prim "y", Val.prim "z"]) =
      .ok ([Val.prim "a", Val.prim "x", Val.prim "y", Val.prim "z", Val.prim "d"],
        [Event.prepareChild "1" (Val.prim "x") true,
         Event.prepareChild "2" (Val.prim "y") true,
         Event.prepareChild "3" (Val.prim "z") false,
         Event.emitPatch { op := "remove", path := "2" },
         Event.emitPatch { op := "remove", path := "1" },
         Event.emitPatch { op := "add", path := "1", value := some (Val.prim "x") },
         Event.emitPatch { op := "add", path := "2", value := some (Val.prim "y") },
         Event.emitPatch { op := "add", path := "3", value := some (Val.prim "z") }]) := by
  constructor
  · intro i r added
    rw [didChange, emitRemoves_eq, List.map_map,
      range_map_getD_eq_mapIdx added
        (fun k v => Event.emitPatch { op := "add", path := toString (i + k),
                                      value := some (valueToSnapshot v) }) Val.undef]
    rfl
  · decide

/-- C9: a single-slot update whose new value is reference-identical to the current
occupant is vetoed by the interception hook: `willChange` returns `null`, no
external call is made, and the full edit pipeline leaves the target unchanged with
zero patches emitted. -/
theorem c9_identical_update_vetoed (pc : String → Val → Bool → Val)
    (target : List Val) (i : Nat) (v : Val) (h : target.getD i Val.undef = v) :
    willChange pc true target (.update i v) = .ok (none, []) ∧
    performChange pc true target (.update i v) = .ok (target, []) := by
  have h1 : willChange pc true target (.update i v) = .ok (none, []) := by
    subst h; simp [willChange]
  exact ⟨h1, by simp [performChange, h1]⟩

/-- Witness for C9 at a concrete input: updating slot 0 of `[a]` with the identical
value is a vetoed no-op. -/
theorem c9_identical_update_vetoed_witness :
    willChange pcId true [Val.prim "a"] (.update 0 (Val.prim "a")) = .ok (none, []) ∧
    performChange pcId true [Val.prim "a"] (.update 0 (Val.prim "a")) =
      .ok ([Val.prim "a"], []) :=
  c9_identical_update_vetoed pcId [Val.prim "a"] 0 (Val.prim "a") (by decide)

/-- C10: a patch whose `op` is none of `add`, `remove`, `replace` falls through the
`switch` of `applyPatchLocally`: the container is untouched, nothing is logged, and
no error is signalled. -/
theorem c10_unknown_op_is_noop (pc : String → Val → Bool → Val) (writable : Bool)
    (target : List Val) (subpath : String) (patch : Patch)
    (h1 : patch.op ≠ "replace") (h2 : patch.op ≠ "add") (h3 : patch.op ≠ "remove") :
    applyPatchLocally pc writable target subpath patch = .ok (target, []) := by
  unfold applyPatchLocally
  split <;> simp_all

/-- Emitted patches distribute over log concatenation. -/
theorem patchesOf_append (l1 l2 : List Event) :
    patchesOf (l1 ++ l2) = patchesOf l1 ++ patchesOf l2 :=
  List.filterMap_append l1 l2 _

/-- Logged prepareChild calls distribute over log concatenation. -/
theorem preparesOf_append (l1 l2 : List Event) :
    preparesOf (l1 ++ l2) = preparesOf l1 ++ preparesOf l2 :=
  List.filterMap_append l1 l2 _

/-- Logged detaches distribute over log concatenation. -/
theorem detachesOf_append (l1 l2 : List Event) :
    detachesOf (l1 ++ l2) = detachesOf l1 ++ detachesOf l2 :=
  List.filterMap_append l1 l2 _

/-- Logged reindexings distribute over log concatenation. -/
theorem reindexesOf_append (l1 l2 : List Event) :
    reindexesOf (l1 ++ l2) = reindexesOf l1 ++ reindexesOf l2 :=
  List.filterMap_append l1 l2 _

/-- An event log without detach events has no detached refs. -/
theorem detachesOf_eq_nil {evs : List Event} (h : ∀ ref : Nat, Event.detach ref ∉ evs) :
    detachesOf evs = [] := by
  rw [detachesOf, List.filterMap_eq_nil_iff]
  intro e he
  match e with
  | .prepareChild _ _ _ => rfl
  | .detach ref => exact absurd he (h ref)
  | .reindex _ _ => rfl
  | .emitPatch _ => rfl

/-- Membership in a contiguous slice `l.slice(a, a+b)`, phrased by absolute index. -/
theorem mem_take_drop_iff {α : Type} (l : List α) (a b : Nat) (v : α) :
    v ∈ (l.drop a).take b ↔ ∃ j, a ≤ j ∧ j < a + b ∧ l[j]? = some v := by
  rw [List.mem_iff_getElem?]
  constructor
  · rintro ⟨k, hk⟩
    obtain ⟨hlt, -⟩ := List.getElem?_eq_some_iff.mp hk
    rw [List.length_take, List.length_drop] at hlt
    have hkb : k < b := by omega
    rw [List.getElem?_take_of_lt hkb, List.getElem?_drop] at hk
    exact ⟨a + k, Nat.le_add_right a k, by omega, hk⟩
  · rintro ⟨j, haj, hjb, hj⟩
    refine ⟨j - a, ?_⟩
    rw [List.getElem?_take_of_lt (by omega), List.getElem?_drop,
      show a + (j - a) = j by omega]
    exact hj

/-- The detach events of unkeyed reconciliation come exactly from the slice
`[i + reconcilableCount, i + removedCount)` of the current target. -/
theorem detachesOf_reconcile (pc : String → Val → Bool → Val) (target : List Val)
    (i r : Nat) (added : List Val) :
    detachesOf (reconcileUnkeyedArrayItems pc target i added r).2 =
      ((target.drop (i + min r added.length)).take (r - min r added.length)).filterMap
        fun old => (maybeMSTRef old).map fun d => d.ref := by
  have hre : ∀ ref : Nat, Event.detach ref ∉
      ((target.drop (i + r)).mapIdx fun idx oldValue =>
        (maybeMSTRef oldValue).map fun adm =>
          Event.reindex adm.ref (toString (((i + r + idx : Nat) : Int) +
            ((added.length : Int) - (r : Int))))).filterMap id := by
    intro ref hmem
    rw [List.mem_filterMap] at hmem
    obtain ⟨o, ho, hido⟩ := hmem
    rw [List.mem_mapIdx] at ho
    obtain ⟨idx, hlt, hfo⟩ := ho
    cases hmt : maybeMSTRef (target.drop (i + r))[idx] <;> rw [hmt] at hfo <;>
      simp_all
  have hp1 : ∀ ref : Nat, Event.detach ref ∉
      (added.take (min r added.length)).mapIdx fun pos newValue =>
        Event.prepareChild (toString (i + pos)) newValue true := by
    intro ref hmem
    rw [List.mem_mapIdx] at hmem
    obtain ⟨idx, hlt, hfo⟩ := hmem
    exact Event.noConfusion hfo
  have hp2 : ∀ ref : Nat, Event.detach ref ∉
      (added.drop (min r added.length)).mapIdx fun pos newValue =>
        Event.prepareChild (toString (i + pos + min r added.length)) newValue false := by
    intro ref hmem
    rw [List.mem_mapIdx] at hmem
    obtain ⟨idx, hlt, hfo⟩ := hmem
    exact Event.noConfusion hfo
  simp only [reconcileUnkeyedArrayItems]
  rw [detachesOf_append, detachesOf_append, detachesOf_append,
    detachesOf_eq_nil hre, detachesOf_eq_nil hp1, detachesOf_eq_nil hp2]
  simp only [List.append_nil]
  by_cases hcase : min r added.length < r
  · rw [if_pos hcase, List.filterMap_map, detachesOf, List.filterMap_filterMap]
    congr 1
    funext old
    cases old <;> rfl
  · rw [if_neg hcase, show r - min r added.length = 0 by omega]
    simp [detachesOf]

/-- C6: unkeyed reconciliation of a splice at `i` removing `r` given `added` detaches
(`setParent(null)`) exactly those current elements in `[i + min r added.length, i + r)`
that are nodes, and nothing else; in particular when `r ≤ added.length` this step
detaches nothing. -/
theorem c6_splice_detaches_dropped_only (pc : String → Val → Bool → Val)
    (target : List Val) (i r : Nat) (added : List Val) :
    (∀ ref : Nat, ref ∈ detachesOf (reconcileUnkeyedArrayItems pc target i added r).2 ↔
      ∃ j d, i + min r added.length ≤ j ∧ j < i + r ∧
        target[j]? = some (Val.node d) ∧ d.ref = ref) ∧
    (r ≤ added.length →
      detachesOf (reconcileUnkeyedArrayItems pc target i added r).2 = []) := by
  constructor
  · intro ref
    rw [detachesOf_reconcile, List.mem_filterMap]
    constructor
    · rintro ⟨old, hmem, hsome⟩
      rw [mem_take_drop_iff] at hmem
      obtain ⟨j, hj1, hj2, hj3⟩ := hmem
      cases old with
      | node d =>
          refine ⟨j, d, hj1, by omega, hj3, ?_⟩
          simpa [maybeMSTRef] using hsome
      | prim s => simp [maybeMSTRef] at hsome
      | raw f => simp [maybeMSTRef] at hsome
      | undef => simp [maybeMSTRef] at hsome
    · rintro ⟨j, d, hj1, hj2, hj3, hj4⟩
      refine ⟨Val.node d, ?_, by simp [maybeMSTRef, hj4]⟩
      rw [mem_take_drop_iff]
      exact ⟨j, hj1, by omega, hj3⟩
  · intro hra
    rw [detachesOf_reconcile, show r - min r added.length = 0 by omega]
    simp

/-- Witness for C6 at concrete inputs: a splice removing 1 and adding 1 at index 0 of
a one-node target detaches nothing, while a splice removing 1 and adding 0 detaches
the node at index 0. -/
theorem c6_splice_detaches_dropped_only_witness :
    detachesOf (reconcileUnkeyedArrayItems pcId
      [Val.node { ref := 7, fields := [] }] 0 [Val.prim "x"] 1).2 = [] ∧
    7 ∈ detachesOf (reconcileUnkeyedArrayItems pcId
      [Val.node { ref := 7, fields := [] }] 0 [] 1).2 :=
  ⟨(c6_splice_detaches_dropped_only pcId [Val.node { ref := 7, fields := [] }] 0 1
      [Val.prim "x"]).2 (by decide),
   ((c6_splice_detaches_dropped_only pcId [Val.node { ref := 7, fields := [] }] 0 1
      []).1 7).mpr ⟨0, { ref := 7, fields := [] }, by decide, by decide, by decide, rfl⟩⟩

/-- Reindex log entries are exactly the reindex events of the log. -/
theorem mem_reindexesOf {evs : List Event} (ref : Nat) (p : String) :
    (ref, p) ∈ reindexesOf evs ↔ Event.reindex ref p ∈ evs := by
  rw [reindexesOf, List.mem_filterMap]
  constructor
  · rintro ⟨e, he, hex⟩
    match e with
    | .prepareChild _ _ _ => exact Option.noConfusion hex
    | .detach _ => exact Option.noConfusion hex
    | .emitPatch _ => exact Option.noConfusion hex
    | .reindex ref' p' =>
        obtain ⟨rfl, rfl⟩ : ref' = ref ∧ p' = p := by
          simpa using hex
        exact he
  · intro he
    exact ⟨.reindex ref p, he, rfl⟩

/-- C7: during unkeyed reconciliation of a splice at `i` removing `r`, the logged
`setParent(node, path)` re-registrations are exactly one per current element at
index `j ≥ i + r` that is a node, with path the decimal string of its post-edit
index `j + (added.length - r)`; and the full pipeline performs them inside the
pre-commit hook, on the pre-commit target, before the indices physically move and
before any patch is emitted. -/
theorem c7_tail_reindexed_pre_commit (pc : String → Val → Bool → Val)
    (target : List Val) (i r : Nat) (added : List Val) :
    (∀ (ref : Nat) (path : String),
      (ref, path) ∈ reindexesOf (reconcileUnkeyedArrayItems pc target i added r).2 ↔
      ∃ j d, i + r ≤ j ∧ target[j]? = some (Val.node d) ∧ d.ref = ref ∧
        path = toString ((j : Int) + ((added.length : Int) - (r : Int)))) ∧
    performChange pc true target (.splice i r added) =
      .ok (target.take i ++ (reconcileUnkeyedArrayItems pc target i added r).1 ++
             target.drop (i + r),
           (reconcileUnkeyedArrayItems pc target i added r).2 ++
             didChange (.splice i r (reconcileUnkeyedArrayItems pc target i added r).1)) := by
  constructor
  · intro ref path
    rw [mem_reindexesOf]
    simp only [reconcileUnkeyedArrayItems]
    rw [List.mem_append, List.mem_append]
    have hdrop : Event.reindex ref path ∉
        (if min r added.length < r then
          (((target.drop (i + min r added.length)).take (r - min r added.length)).map
            fun oldValue => (maybeMSTRef oldValue).map fun adm =>
              Event.detach adm.ref).filterMap id
        else []) := by
      intro hmem
      split at hmem
      · rw [List.mem_filterMap] at hmem
        obtain ⟨o, ho, hido⟩ := hmem
        rw [List.mem_map] at ho
        obtain ⟨old, -, hold⟩ := ho
        cases hmt : maybeMSTRef old <;> rw [hmt] at hold <;> simp_all
      · simp at hmem
    have hprep : Event.reindex ref path ∉
        ((added.take (min r added.length)).mapIdx fun pos newValue =>
          Event.prepareChild (toString (i + pos)) newValue true) ++
        ((added.drop (min r added.length)).mapIdx fun pos newValue =>
          Event.prepareChild (toString (i + pos + min r added.length)) newValue false) := by
      intro hmem
      rw [List.mem_append] at hmem
      rcases hmem with hmem | hmem <;> rw [List.mem_mapIdx] at hmem <;>
        obtain ⟨idx, hlt, hfo⟩ := hmem <;> exact Event.noConfusion hfo
    constructor
    · rintro ((h | h) | h)
      · exact absurd h hdrop
      · rw [List.mem_filterMap] at h
        obtain ⟨o, ho, hido⟩ := h
        simp only [id_eq] at hido
        subst hido
        rw [List.mem_mapIdx] at ho
        obtain ⟨idx, hlt, heq⟩ := ho
        cases hmt : maybeMSTRef (target.drop (i + r))[idx] <;> rw [hmt] at heq
        · exact Option.noConfusion heq
        · rename_i d
          obtain ⟨hl1, hl2⟩ := Event.reindex.inj (Option.some.inj heq)
          refine ⟨i + r + idx, d, Nat.le_add_right _ _, ?_, hl1, hl2.symm⟩
          rw [← List.getElem?_drop]
          rw [List.getElem?_eq_getElem hlt]
          cases hv : (target.drop (i + r))[idx] <;> rw [hv] at hmt <;>
            simp_all [maybeMSTRef]
      · exact absurd h hprep
    · rintro ⟨j, d, hle, hget, rfl, rfl⟩
      refine Or.inl (Or.inr ?_)
      rw [List.mem_filterMap]
      obtain ⟨hjlt, hjeq⟩ := List.getElem?_eq_some_iff.mp hget
      have htail : (target.drop (i + r))[j - (i + r)]? = some (Val.node d) := by
        rw [List.getElem?_drop, show i + r + (j - (i + r)) = j by omega]
        exact hget
      obtain ⟨hltidx, heqidx⟩ := List.getElem?_eq_some_iff.mp htail
      refine ⟨some (Event.reindex d.ref
        (toString ((j : Int) + ((added.length : Int) - (r : Int))))), ?_, rfl⟩
      rw [List.mem_mapIdx]
      refine ⟨j - (i + r), hltidx, ?_⟩
      rw [heqidx]
      simp only [maybeMSTRef, Option.map_some]
      rw [show i + r + (j - (i + r)) = j by omega]
      rfl
  · rfl

/-- Witness for C7 at a concrete input: splicing 1 out and 2 in at index 0 of
a target whose element at index 1 is the node with ref 7 re-registers that node
at path 2 = 1 + (2 - 1). -/
theorem c7_tail_reindexed_pre_commit_witness :
    (7, "2") ∈ reindexesOf (reconcileUnkeyedArrayItems pcId
      [Val.prim "a", Val.node { ref := 7, fields := [] }] 0
      [Val.prim "x", Val.prim "y"] 1).2 :=
  ((c7_tail_reindexed_pre_commit pcId
      [Val.prim "a", Val.node { ref := 7, fields := [] }] 0 1
      [Val.prim "x", Val.prim "y"]).1 7 "2").mpr
    ⟨1, { ref := 7, fields := [] }, by decide, by decide, rfl, by decide⟩

/-- C8: the splice payload returned by unkeyed reconciliation has exactly one entry
per incoming added element: entry `pos` is `prepareChild` applied at path `i + pos`
to that element, with `reconcileExisting = true` exactly on the first
`min r added.length` entries (for `pos ≥ min r added.length` the path
`i + pos` equals the source's `i + reconcilableCount + pos'`); interception then
substitutes this payload while leaving the splice's index and removal count
unchanged. -/
theorem c8_splice_payload_prepared (pc : String → Val → Bool → Val) (target : List Val)
    (i r : Nat) (added : List Val) :
    (reconcileUnkeyedArrayItems pc target i added r).1.length = added.length ∧
    (∀ pos : Nat, (reconcileUnkeyedArrayItems pc target i added r).1[pos]? =
      added[pos]?.map fun v =>
        pc (toString (i + pos)) v (decide (pos < min r added.length))) ∧
    willChange pc true target (.splice i r added) =
      .ok (some (.splice i r (reconcileUnkeyedArrayItems pc target i added r).1),
           (reconcileUnkeyedArrayItems pc target i added r).2) := by
  refine ⟨?_, ?_, ?_⟩
  · simp [reconcileUnkeyedArrayItems]
  · intro pos
    simp only [reconcileUnkeyedArrayItems]
    by_cases hpos : pos < min r added.length
    · rw [List.getElem?_append_left (by simp [Nat.lt_min] at hpos ⊢; omega)]
      rw [List.getElem?_mapIdx, List.getElem?_take_of_lt hpos]
      simp [hpos]
    · have hlen : (List.take (min r added.length) added).length = min r added.length := by
        rw [List.length_take]; omega
      rw [List.getElem?_append_right (by rw [List.length_mapIdx, hlen]; omega)]
      rw [List.getElem?_mapIdx, List.length_mapIdx, List.getElem?_drop, hlen]
      by_cases hin : pos < added.length
      · rw [show min r added.length + (pos - min r added.length) = pos by omega]
        cases hv : added[pos]? with
        | none => rfl
        | some v =>
            simp [hpos,
              show i + (pos - min r added.length) + min r added.length = i + pos by omega]
      · have h1 : added[pos]? = none := by rw [List.getElem?_eq_none_iff]; omega
        have h2 : added[min r added.length + (pos - min r added.length)]? = none := by
          rw [List.getElem?_eq_none_iff]; omega
        simp [h1, h2]
  · rfl

/-- When the identifier-map loop succeeds, every listed element's identifier was
absent from the accumulator it started from. -/
theorem buildCurrent_ok_fresh (attr : String) :
    ∀ (l : List Val) (acc m : List (Option String × Val)),
      buildCurrent attr l acc = .ok m →
      ∀ x ∈ l, acc.lookup (getAttr attr x) = none := by
  intro l
  induction l with
  | nil => intro acc m h x hx; exact absurd hx (List.not_mem_nil x)
  | cons item rest ih =>
      intro acc m h x hx
      rw [buildCurrent] at h
      split at h
      · exact Except.noConfusion h
      · rename_i hif
        rw [Bool.not_eq_true, Option.not_isSome, Option.isNone_iff_eq_none] at hif
        rcases List.mem_cons.mp hx with rfl | hx'
        · exact hif
        · have := ih (acc ++ [(getAttr attr item, item)]) m h x hx'
          rw [List.lookup_append] at this
          exact (Option.or_eq_none.mp this).1

/-- When the identifier-map loop succeeds, the listed identifier values are
pairwise distinct. -/
theorem buildCurrent_ok_nodup (attr : String) :
    ∀ (l : List Val) (acc m : List (Option String × Val)),
      buildCurrent attr l acc = .ok m → (l.map (getAttr attr)).Nodup := by
  intro l
  induction l with
  | nil => intro acc m h; simp
  | cons item rest ih =>
      intro acc m h
      rw [buildCurrent] at h
      split at h
      · exact Except.noConfusion h
      · rename_i hif
        rw [List.map_cons, List.nodup_cons]
        refine ⟨?_, ih _ m h⟩
        intro hmem
        rw [List.mem_map] at hmem
        obtain ⟨y, hy, hyeq⟩ := hmem
        have hfresh := buildCurrent_ok_fresh attr rest _ m h y hy
        rw [List.lookup_append, hyeq] at hfresh
        obtain ⟨-, h2⟩ := Option.or_eq_none.mp hfresh
        rw [List.lookup_cons] at h2
        simp at h2

/-- With pairwise-distinct identifiers the map loop succeeds, producing the
association list of identifier/child pairs in element order. -/
theorem buildCurrent_ok_of_nodup (attr : String) :
    ∀ (l : List Val) (acc : List (Option String × Val)),
      (l.map (getAttr attr)).Nodup →
      (∀ x ∈ l, acc.lookup (getAttr attr x) = none) →
      buildCurrent attr l acc = .ok (acc ++ l.map fun t => (getAttr attr t, t)) := by
  intro l
  induction l with
  | nil => intro acc _ _; simp [buildCurrent]
  | cons item rest ih =>
      intro acc hnd hfresh
      rw [buildCurrent]
      rw [if_neg (by
        rw [Bool.not_eq_true, Option.not_isSome, Option.isNone_iff_eq_none]
        exact hfresh item (List.mem_cons_self item rest))]
      rw [List.map_cons, List.nodup_cons] at hnd
      rw [ih (acc ++ [(getAttr attr item, item)]) hnd.2 ?_]
      · rw [List.append_assoc]
        rfl
      · intro x hx
        rw [List.lookup_append, Option.or_eq_none]
        refine ⟨hfresh x (List.mem_cons_of_mem item hx), ?_⟩
        rw [List.lookup_cons]
        have hne : getAttr attr x ≠ getAttr attr item := by
          intro heq
          exact hnd.1 (heq ▸ List.mem_map_of_mem (getAttr attr) hx)
        rw [beq_eq_false_iff_ne.mpr hne]
        rfl

/-- Looking an identifier up in the association list built from a child list is
finding the first child with that identifier value. -/
theorem lookup_map_attr_eq_find? (attr : String) (l : List Val) (k : Option String) :
    (l.map fun t => (getAttr attr t, t)).lookup k =
      l.find? fun t => k == getAttr attr t := by
  induction l with
  | nil => rfl
  | cons t rest ih =>
      rw [List.map_cons, List.lookup_cons, List.find?_cons]
      cases hb : (k == getAttr attr t) with
      | true => simp [hb]
      | false => simp [hb, ih]

/-- Two stacked index-driven maps fuse into one. -/
theorem mapIdx_mapIdx {α β γ : Type} (l : List α) (f : Nat → α → β) (g : Nat → β → γ) :
    (l.mapIdx f).mapIdx g = l.mapIdx fun i a => g i (f i a) := by
  rw [List.mapIdx_eq_iff]
  intro i
  cases hv : l[i]? <;> simp [hv]

/-- Index-driven maps of pointwise-equal functions agree. -/
theorem mapIdx_congr {α β : Type} (l : List α) (f g : Nat → α → β)
    (h : ∀ i a, f i a = g i a) : l.mapIdx f = l.mapIdx g := by
  rw [List.mapIdx_eq_iff]
  intro i
  cases hv : l[i]? <;> simp [hv, h]

/-- An event log without prepareChild events records no prepare calls. -/
theorem preparesOf_eq_nil {evs : List Event}
    (h : ∀ (p : String) (v : Val) (b : Bool), Event.prepareChild p v b ∉ evs) :
    preparesOf evs = [] := by
  rw [preparesOf, List.filterMap_eq_nil_iff]
  intro e he
  match e with
  | .prepareChild p v b => exact absurd he (h p v b)
  | .detach _ => rfl
  | .reindex _ _ => rfl
  | .emitPatch _ => rfl

/-- An event log without emitPatch events records no patches. -/
theorem patchesOf_eq_nil {evs : List Event}
    (h : ∀ p : Patch, Event.emitPatch p ∉ evs) :
    patchesOf evs = [] := by
  rw [patchesOf, List.filterMap_eq_nil_iff]
  intro e he
  match e with
  | .prepareChild _ _ _ => rfl
  | .detach _ => rfl
  | .reindex _ _ => rfl
  | .emitPatch p => exact absurd he (h p)

/-- Every event of a detach block (the drop loop of unkeyed reconciliation) is a
detach event. -/
theorem events_of_detach_block {l : List Val} {e : Event}
    (he : e ∈ (l.map fun oldValue => (maybeMSTRef oldValue).map fun adm =>
        Event.detach adm.ref).filterMap id) :
    ∃ ref, e = Event.detach ref := by
  rw [List.mem_filterMap] at he
  obtain ⟨o, ho, hid⟩ := he
  simp only [id_eq] at hid
  subst hid
  rw [List.mem_map] at ho
  obtain ⟨old, -, hold⟩ := ho
  cases hmt : maybeMSTRef old <;> rw [hmt] at hold
  · exact Option.noConfusion hold
  · exact ⟨_, (Option.some.inj hold).symm⟩

/-- Every event of a reindex block (the shift loop of unkeyed reconciliation) is a
reindex event. -/
theorem events_of_reindex_block {l : List Val} {g : Nat → String} {e : Event}
    (he : e ∈ (l.mapIdx fun idx oldValue => (maybeMSTRef oldValue).map fun adm =>
        Event.reindex adm.ref (g idx)).filterMap id) :
    ∃ ref p, e = Event.reindex ref p := by
  rw [List.mem_filterMap] at he
  obtain ⟨o, ho, hid⟩ := he
  simp only [id_eq] at hid
  subst hid
  rw [List.mem_mapIdx] at ho
  obtain ⟨idx, hlt, heq⟩ := ho
  cases hmt : maybeMSTRef l[idx] <;> rw [hmt] at heq
  · exact Option.noConfusion heq
  · exact ⟨_, _, (Option.some.inj heq).symm⟩

/-- Extracting prepare calls from a prepare block is the block's argument list. -/
theorem preparesOf_mapIdx (l : List Val) (p : Nat → String) (b : Bool) :
    preparesOf (l.mapIdx fun pos v => Event.prepareChild (p pos) v b) =
      l.mapIdx fun pos v => (p pos, v, b) := by
  induction l generalizing p with
  | nil => rfl
  | cons a rest ih =>
      rw [List.mapIdx_cons, List.mapIdx_cons, preparesOf, List.filterMap_cons]
      exact congrArg (List.cons _) (ih fun pos => p (pos + 1))

/-- The prepareChild calls logged by unkeyed reconciliation: one per added element,
reconciling at `i + pos` for the first `reconcilableCount`, constructing at
`i + pos + reconcilableCount` for the rest. -/
theorem preparesOf_reconcile (pc : String → Val → Bool → Val) (target : List Val)
    (i r : Nat) (added : List Val) :
    preparesOf (reconcileUnkeyedArrayItems pc target i added r).2 =
      (added.take (min r added.length)).mapIdx
        (fun pos v => (toString (i + pos), v, true)) ++
      (added.drop (min r added.length)).mapIdx
        (fun pos v => (toString (i + pos + min r added.length), v, false)) := by
  have hdrop : preparesOf
      (if min r added.length < r then
        (((target.drop (i + min r added.length)).take (r - min r added.length)).map
          fun oldValue => (maybeMSTRef oldValue).map fun adm =>
            Event.detach adm.ref).filterMap id
      else []) = [] := by
    apply preparesOf_eq_nil
    intro p v b hmem
    split at hmem
    · obtain ⟨ref, heq⟩ := events_of_detach_block hmem
      exact Event.noConfusion heq
    · simp at hmem
  have hrein : preparesOf
      (((target.drop (i + r)).mapIdx fun idx oldValue =>
        (maybeMSTRef oldValue).map fun adm =>
          Event.reindex adm.ref (toString (((i + r + idx : Nat) : Int) +
            ((added.length : Int) - (r : Int))))).filterMap id) = [] := by
    apply preparesOf_eq_nil
    intro p v b hmem
    obtain ⟨ref, pp, heq⟩ := events_of_reindex_block hmem
    exact Event.noConfusion heq
  simp only [reconcileUnkeyedArrayItems]
  rw [preparesOf_append, preparesOf_append, preparesOf_append, hdrop, hrein,
    preparesOf_mapIdx, preparesOf_mapIdx]
  rw [List.nil_append, List.nil_append]

/-- Unkeyed reconciliation (the pre-commit hook) emits no patches. -/
theorem patchesOf_reconcile (pc : String → Val → Bool → Val) (target : List Val)
    (i r : Nat) (added : List Val) :
    patchesOf (reconcileUnkeyedArrayItems pc target i added r).2 = [] := by
  have hdrop : patchesOf
      (if min r added.length < r then
        (((target.drop (i + min r added.length)).take (r - min r added.length)).map
          fun oldValue => (maybeMSTRef oldValue).map fun adm =>
            Event.detach adm.ref).filterMap id
      else []) = [] := by
    apply patchesOf_eq_nil
    intro p hmem
    split at hmem
    · obtain ⟨ref, heq⟩ := events_of_detach_block hmem
      exact Event.noConfusion heq
    · simp at hmem
  have hrein : patchesOf
      (((target.drop (i + r)).mapIdx fun idx oldValue =>
        (maybeMSTRef oldValue).map fun adm =>
          Event.reindex adm.ref (toString (((i + r + idx : Nat) : Int) +
            ((added.length : Int) - (r : Int))))).filterMap id) = [] := by
    apply patchesOf_eq_nil
    intro p hmem
    obtain ⟨ref, pp, heq⟩ := events_of_reindex_block hmem
    exact Event.noConfusion heq
  have hp1 : patchesOf ((added.take (min r added.length)).mapIdx fun pos newValue =>
      Event.prepareChild (toString (i + pos)) newValue true) = [] := by
    apply patchesOf_eq_nil
    intro p hmem
    rw [List.mem_mapIdx] at hmem
    obtain ⟨idx, hlt, hfo⟩ := hmem
    exact Event.noConfusion hfo
  have hp2 : patchesOf ((added.drop (min r added.length)).mapIdx fun pos newValue =>
      Event.prepareChild (toString (i + pos + min r added.length)) newValue false) =
      [] := by
    apply patchesOf_eq_nil
    intro p hmem
    rw [List.mem_mapIdx] at hmem
    obtain ⟨idx, hlt, hfo⟩ := hmem
    exact Event.noConfusion hfo
  simp only [reconcileUnkeyedArrayItems]
  rw [patchesOf_append, patchesOf_append, patchesOf_append, hdrop, hrein, hp1, hp2]
  rfl

/-- The post-commit observation hook makes no prepareChild calls. -/
theorem preparesOf_didChange (c : ArrayChange) : preparesOf (didChange c) = [] := by
  apply preparesOf_eq_nil
  intro p v b hmem
  match c with
  | .update i nv => simp [didChange] at hmem
  | .splice i r added =>
      rw [didChange, List.mem_append] at hmem
      rcases hmem with hmem | hmem <;> rw [List.mem_map] at hmem <;>
        obtain ⟨q, -, hq⟩ := hmem <;> exact Event.noConfusion hq

/-- C2 (amended): identity-based reconciliation fails with the uniqueness-violation
assertion whenever two EXISTING children share an identifier-attribute value, and
the failure propagates uncaught through whole-snapshot application; duplicated
identifiers among the incoming snapshot entries alone are not checked. -/
theorem c2_existing_duplicate_identifier_asserts (attr : String)
    (getTypeIs : Val → Val → Bool) (applySnap : Val → Val → Val) (create : Val → Val)
    (pc : String → Val → Bool → Val) (writable : Bool)
    (target snapshot : List Val) (a b : Nat) (u w : Val)
    (hab : a < b) (ha : target[a]? = some u) (hb : target[b]? = some w)
    (hshare : getAttr attr u = getAttr attr w) :
    (∃ e, reconcileArrayItems attr getTypeIs applySnap create target snapshot =
      .error e) ∧
    (∃ e, applySnapshotType (some attr) getTypeIs applySnap create pc writable
      target snapshot = .error e) := by
  cases hbc : buildCurrent attr target [] with
  | ok m =>
      exfalso
      have hnd := buildCurrent_ok_nodup attr target [] m hbc
      rw [List.nodup_iff_getElem?_ne_getElem?] at hnd
      have hblt : b < target.length := (List.getElem?_eq_some_iff.mp hb).1
      refine hnd a b hab (by rw [List.length_map]; exact hblt) ?_
      rw [List.getElem?_map, List.getElem?_map, ha, hb]
      simp [hshare]
  | error e =>
      exact ⟨⟨e, by rw [reconcileArrayItems, hbc]⟩,
             ⟨e, by rw [applySnapshotType, reconcileArrayItems, hbc]⟩⟩

/-- Witness for C2 (amended) at a concrete input: two existing children both carry
identifier value 1, and reconciliation as well as snapshot application fail. -/
theorem c2_existing_duplicate_identifier_asserts_witness :
    (∃ e, reconcileArrayItems "id" (fun _ _ => true) applySnapModel createFresh
      [Val.node { ref := 10, fields := [("id", "1")] },
       Val.node { ref := 20, fields := [("id", "1")] }] [] = .error e) ∧
    (∃ e, applySnapshotType (some "id") (fun _ _ => true) applySnapModel createFresh
      pcId true
      [Val.node { ref := 10, fields := [("id", "1")] },
       Val.node { ref := 20, fields := [("id", "1")] }] [] = .error e) :=
  c2_existing_duplicate_identifier_asserts "id" (fun _ _ => true) applySnapModel
    createFresh pcId true
    [Val.node { ref := 10, fields := [("id", "1")] },
     Val.node { ref := 20, fields := [("id", "1")] }] []
    0 1 (Val.node { ref := 10, fields := [("id", "1")] })
    (Val.node { ref := 20, fields := [("id", "1")] })
    (by decide) (by decide) (by decide) (by decide)

/-- C2 counterexample: two INCOMING snapshot entries share identifier value 2, yet
identity-based reconciliation returns successfully (both entries are created) —
no uniqueness assertion fires, refuting the claim for incoming duplicates. -/
theorem c2_incoming_duplicate_not_asserted :
    reconcileArrayItems "id" (fun _ _ => true) applySnapModel createFresh
      [Val.node { ref := 10, fields := [("id", "1")] }]
      [Val.raw [("id", "2")], Val.raw [("id", "2")]] =
      .ok [Val.node { ref := 99, fields := [("id", "2")] },
           Val.node { ref := 99, fields := [("id", "2")] }] := by decide

/-- C5: with an identifier attribute and uniquely-identified existing children,
identity-based reconciliation maps the incoming snapshot in snapshot order: an
entry whose identifier matches an existing child accepted by its runtime type is
applied onto that child in place (the child is kept), any other entry becomes a
brand-new child via `create`. -/
theorem c5_identifier_reconciliation_keeps_matching_children (attr : String)
    (getTypeIs : Val → Val → Bool) (applySnap : Val → Val → Val) (create : Val → Val)
    (target snapshot : List Val)
    (hnodup : (target.map (getAttr attr)).Nodup) :
    reconcileArrayItems attr getTypeIs applySnap create target snapshot =
      .ok (snapshot.map fun item =>
        match target.find? (fun t => getAttr attr item == getAttr attr t) with
        | some existing =>
            if getTypeIs existing item then applySnap existing item else create item
        | none => create item) := by
  have hok := buildCurrent_ok_of_nodup attr target [] hnodup (by intro x hx; rfl)
  rw [reconcileArrayItems, hok, List.nil_append]
  exact congrArg Except.ok
    (List.map_congr_left fun item hitem => by rw [lookup_map_attr_eq_find?])

/-- Witness for C5 at the spec's concrete example: container
`[(id 1, v a), (id 2, v b)]`, snapshot `[(id 2, v B), (id 3, v c)]` — the id-2 node
is kept (same ref 20, updated content), id 1 is dropped, id 3 is freshly created,
final order id 2 then id 3. -/
theorem c5_identifier_reconciliation_keeps_matching_children_witness :
    reconcileArrayItems "id" (fun _ _ => true) applySnapModel createFresh
      [Val.node { ref := 10, fields := [("id", "1"), ("v", "a")] },
       Val.node { ref := 20, fields := [("id", "2"), ("v", "b")] }]
      [Val.raw [("id", "2"), ("v", "B")], Val.raw [("id", "3"), ("v", "c")]] =
      .ok [Val.node { ref := 20, fields := [("id", "2"), ("v", "B")] },
           Val.node { ref := 99, fields := [("id", "3"), ("v", "c")] }] :=
  (c5_identifier_reconciliation_keeps_matching_children "id" (fun _ _ => true)
    applySnapModel createFresh
    [Val.node { ref := 10, fields := [("id", "1"), ("v", "a")] },
     Val.node { ref := 20, fields := [("id", "2"), ("v", "b")] }]
    [Val.raw [("id", "2"), ("v", "B")], Val.raw [("id", "3"), ("v", "c")]]
    (by decide)).trans (by decide)

/-- C3 counterexample: hydrating a fresh container from the one-element snapshot
`[x]` is observed by the wired hooks — the log of `emitPatch` calls made during
hydration is the one-element add-patch list, not the empty list. -/
theorem c3_hydration_emits_a_patch :
    (hydrate none (fun _ _ => true) applySnapModel createFresh pcId true
      [Val.prim "x"]).map (fun res => patchesOf res.2) =
      .ok [{ op := "add", path := "0", value := some (Val.prim "x") }] ∧
    (hydrate none (fun _ _ => true) applySnapModel createFresh pcId true
      [Val.prim "x"]).map (fun res => patchesOf res.2) ≠ .ok [] := by
  constructor
  · decide
  · decide

/-- C3 (amended): hydrating a fresh instance populates the container with the
prepared snapshot elements, but does not bypass patch emission — since observation
is wired before the snapshot is applied, hydration logs one `prepareChild` call and
then one `add` `emitPatch` call per snapshot element, at ascending paths from 0
(and no remove or replace patches). Stated for an element type without identifier
attribute. -/
theorem c3_hydration_emits_one_add_patch_per_element
    (getTypeIs : Val → Val → Bool) (applySnap : Val → Val → Val) (create : Val → Val)
    (pc : String → Val → Bool → Val) (snapshot : List Val) :
    hydrate none getTypeIs applySnap create pc true snapshot =
      .ok (snapshot.mapIdx fun k v => pc (toString k) v false,
        (snapshot.mapIdx fun k v => Event.prepareChild (toString k) v false) ++
        snapshot.mapIdx fun k v =>
          Event.emitPatch { op := "add", path := toString k,
                            value := some (valueToSnapshot (pc (toString k) v false)) }) := by
  have hrec : reconcileUnkeyedArrayItems pc [] 0 snapshot 0 =
      (snapshot.mapIdx fun k v => pc (toString k) v false,
       snapshot.mapIdx fun k v => Event.prepareChild (toString k) v false) := by
    rw [reconcileUnkeyedArrayItems]
    simp
  have hw : willChange pc true [] (.splice 0 0 snapshot) =
      .ok (some (.splice 0 0 (snapshot.mapIdx fun k v => pc (toString k) v false)),
           snapshot.mapIdx fun k v => Event.prepareChild (toString k) v false) := by
    simp [willChange, hrec]
  have hadds : didChange (.splice 0 0 (snapshot.mapIdx fun k v =>
      pc (toString k) v false)) =
      snapshot.mapIdx fun k v =>
        Event.emitPatch { op := "add", path := toString k,
                          value := some (valueToSnapshot (pc (toString k) v false)) } := by
    rw [didChange, emitRemoves, List.map_nil, List.nil_append]
    rw [range_map_getD_eq_mapIdx (snapshot.mapIdx fun k v => pc (toString k) v false)
      (fun i v => Event.emitPatch { op := "add", path := toString (0 + i),
                                    value := some (valueToSnapshot v) }) Val.undef]
    rw [mapIdx_mapIdx]
    exact mapIdx_congr _ _ _ (by intro i a; rw [Nat.zero_add])
  simp only [hydrate, applySnapshotType, List.length_nil, performChange, hw]
  rw [hadds]
  simp [commitChange]

/-- C4 counterexample: applying the trusted patch add "0" x to an empty container
does trigger interception work — a `prepareChild("0", x, reconcileExisting=false)`
call (made by unkeyed reconciliation of the insert splice) is logged during the
application, refuting the claim that no prepareChild or reconciliation work runs. -/
theorem c4_apply_patch_triggers_prepare :
    (applyPatchLocally pcId true [] "0"
      { op := "add", path := "0", value := some (Val.prim "x") }).map
        (fun res => preparesOf res.2) = .ok [("0", Val.prim "x", false)] ∧
    (applyPatchLocally pcId true [] "0"
      { op := "add", path := "0", value := some (Val.prim "x") }).map
        (fun res => preparesOf res.2) ≠ .ok [] :=
  ⟨by decide, by decide⟩

/-- C4 (amended): `applyPatchLocally` applies a single trusted patch by mutating the
live container (path `"-"` resolving to the container length), but the mutation does
pass through the interception hook: an add patch at index `n` inserts
`prepareChild(n, value, reconcileExisting=false)` and logs exactly that prepare call
plus one add patch; a remove patch at `n < length` removes the slot and emits one
remove patch (no prepare call); a replace patch at `n` whose value differs from the
occupant stores `prepareChild(n, value, reconcileExisting=true)` and emits one
replace patch. -/
theorem c4_apply_patch_routes_through_interception :
    (∀ (pc : String → Val → Bool → Val) (target : List Val) (n : Nat) (v : Val)
        (subpath : String),
      parseIndex subpath = some n → subpath ≠ "-" → n ≤ target.length →
      (applyPatchLocally pc true target subpath
          { op := "add", path := subpath, value := some v }).map
        (fun res => (res.1, preparesOf res.2, patchesOf res.2)) =
      .ok (target.take n ++ [pc (toString n) v false] ++ target.drop n,
           [(toString n, v, false)],
           [{ op := "add", path := toString n,
              value := some (valueToSnapshot (pc (toString n) v false)) }])) ∧
    (∀ (pc : String → Val → Bool → Val) (target : List Val) (v : Val),
      (applyPatchLocally pc true target "-"
          { op := "add", path := "-", value := some v }).map
        (fun res => (res.1, preparesOf res.2, patchesOf res.2)) =
      .ok (target ++ [pc (toString target.length) v false],
           [(toString target.length, v, false)],
           [{ op := "add", path := toString target.length,
              value := some (valueToSnapshot
                (pc (toString target.length) v false)) }])) ∧
    (∀ (pc : String → Val → Bool → Val) (target : List Val) (n : Nat)
        (subpath : String),
      parseIndex subpath = some n → subpath ≠ "-" → n < target.length →
      (applyPatchLocally pc true target subpath
          { op := "remove", path := subpath }).map
        (fun res => (res.1, preparesOf res.2, patchesOf res.2)) =
      .ok (target.take n ++ target.drop (n + 1),
           [], [{ op := "remove", path := toString n }])) ∧
    (∀ (pc : String → Val → Bool → Val) (target : List Val) (n : Nat) (v : Val)
        (subpath : String),
      parseIndex subpath = some n → subpath ≠ "-" →
      v ≠ target.getD n Val.undef →
      (applyPatchLocally pc true target subpath
          { op := "replace", path := subpath, value := some v }).map
        (fun res => (res.1, preparesOf res.2, patchesOf res.2)) =
      .ok (target.set n (pc (toString n) v true),
           [(toString n, v, true)],
           [{ op := "replace", path := toString n,
              value := some (valueToSnapshot (pc (toString n) v true)) }])) := by
  refine ⟨?_, ?_, ?_, ?_⟩
  · intro pc target n v subpath hparse hne hlen
    have hform : applyPatchLocally pc true target subpath
        { op := "add", path := subpath, value := some v } =
        performChange pc true target (spliceChange target
          (if subpath = "-" then target.length
           else (parseIndex subpath).getD 0) 0 [v]) := rfl
    rw [hform, if_neg hne, hparse, Option.getD_some]
    have hsc : spliceChange target n 0 [v] = .splice n 0 [v] := by
      rw [spliceChange]
      simp only [Nat.min_eq_left hlen, Nat.zero_min]
    rw [hsc]
    have hperf : performChange pc true target (.splice n 0 [v]) =
        .ok (target.take n ++ (reconcileUnkeyedArrayItems pc target n [v] 0).1 ++
              target.drop (n + 0),
             (reconcileUnkeyedArrayItems pc target n [v] 0).2 ++
              didChange (.splice n 0
                (reconcileUnkeyedArrayItems pc target n [v] 0).1)) := rfl
    rw [hperf]
    simp only [Except.map]
    refine congrArg Except.ok ?_
    refine Prod.ext rfl (Prod.ext ?_ ?_)
    · show preparesOf _ = _
      rw [preparesOf_append, preparesOf_reconcile, preparesOf_didChange]
      rfl
    · show patchesOf _ = _
      rw [patchesOf_append, patchesOf_reconcile]
      rfl
  · intro pc target v
    have hform : applyPatchLocally pc true target "-"
        { op := "add", path := "-", value := some v } =
        performChange pc true target (spliceChange target
          (if "-" = "-" then target.length
           else (parseIndex "-").getD 0) 0 [v]) := rfl
    rw [hform, if_pos rfl]
    have hsc : spliceChange target target.length 0 [v] =
        .splice target.length 0 [v] := by
      rw [spliceChange]
      simp only [Nat.min_self, Nat.zero_min]
    rw [hsc]
    have hperf : performChange pc true target (.splice target.length 0 [v]) =
        .ok (target.take target.length ++
              (reconcileUnkeyedArrayItems pc target target.length [v] 0).1 ++
              target.drop (target.length + 0),
             (reconcileUnkeyedArrayItems pc target target.length [v] 0).2 ++
              didChange (.splice target.length 0
                (reconcileUnkeyedArrayItems pc target target.length [v] 0).1)) := rfl
    rw [hperf]
    simp only [Except.map]
    refine congrArg Except.ok ?_
    refine Prod.ext ?_ (Prod.ext ?_ ?_)
    · show target.take target.length ++ _ ++ target.drop (target.length + 0) = _
      rw [List.take_length, Nat.add_zero, List.drop_length, List.append_nil]
      rfl
    · show preparesOf _ = _
      rw [preparesOf_append, preparesOf_reconcile, preparesOf_didChange]
      rfl
    · show patchesOf _ = _
      rw [patchesOf_append, patchesOf_reconcile]
      rfl
  · intro pc target n subpath hparse hne hlen
    have hform : applyPatchLocally pc true target subpath
        { op := "remove", path := subpath } =
        performChange pc true target (spliceChange target
          (if subpath = "-" then target.length
           else (parseIndex subpath).getD 0) 1 []) := rfl
    rw [hform, if_neg hne, hparse, Option.getD_some]
    have hsc : spliceChange target n 1 [] = .splice n 1 [] := by
      rw [spliceChange]
      simp only [Nat.min_eq_left (Nat.le_of_lt hlen)]
      rw [Nat.min_eq_left (by omega)]
    rw [hsc]
    have hperf : performChange pc true target (.splice n 1 []) =
        .ok (target.take n ++ (reconcileUnkeyedArrayItems pc target n [] 1).1 ++
              target.drop (n + 1),
             (reconcileUnkeyedArrayItems pc target n [] 1).2 ++
              didChange (.splice n 1
                (reconcileUnkeyedArrayItems pc target n [] 1).1)) := rfl
    rw [hperf]
    simp only [Except.map]
    refine congrArg Except.ok ?_
    refine Prod.ext ?_ (Prod.ext ?_ ?_)
    · show target.take n ++ [] ++ target.drop (n + 1) = _
      rw [List.append_nil]
    · show preparesOf _ = _
      rw [preparesOf_append, preparesOf_reconcile, preparesOf_didChange]
      rfl
    · show patchesOf _ = _
      rw [patchesOf_append, patchesOf_reconcile]
      rfl
  · intro pc target n v subpath hparse hne hneq
    have hform : applyPatchLocally pc true target subpath
        { op := "replace", path := subpath, value := some v } =
        performChange pc true target (.update
          (if subpath = "-" then target.length
           else (parseIndex subpath).getD 0) v) := rfl
    rw [hform, if_neg hne, hparse, Option.getD_some]
    have hw : willChange pc true target (.update n v) =
        .ok (some (.update n (pc (toString n) v true)),
             [Event.prepareChild (toString n) v true]) := by
      have hneq2 : ¬ v = target[n]?.getD Val.undef := by
        rw [← List.getD_eq_getElem?_getD]
        exact hneq
      rw [willChange]
      simp [hneq2]
    simp only [performChange, hw]
    rfl

/-- Witness for C4 (amended) at concrete inputs: add at "1" and at "-", remove at
"0", replace at "0", on small containers. -/
theorem c4_apply_patch_routes_through_interception_witness :
    (applyPatchLocally pcId true [Val.prim "a"] "1"
        { op := "add", path := "1", value := some (Val.prim "x") }).map
      (fun res => (res.1, preparesOf res.2, patchesOf res.2)) =
      .ok ([Val.prim "a", Val.prim "x"], [("1", Val.prim "x", false)],
           [{ op := "add", path := "1", value := some (Val.prim "x") }]) ∧
    (applyPatchLocally pcId true [Val.prim "a"] "-"
        { op := "add", path := "-", value := some (Val.prim "y") }).map
      (fun res => (res.1, preparesOf res.2, patchesOf res.2)) =
      .ok ([Val.prim "a", Val.prim "y"], [("1", Val.prim "y", false)],
           [{ op := "add", path := "1", value := some (Val.prim "y") }]) ∧
    (applyPatchLocally pcId true [Val.prim "a", Val.prim "b"] "0"
        { op := "remove", path := "0" }).map
      (fun res => (res.1, preparesOf res.2, patchesOf res.2)) =
      .ok ([Val.prim "b"], [], [{ op := "remove", path := "0" }]) ∧
    (applyPatchLocally pcId true [Val.prim "a"] "0"
        { op := "replace", path := "0", value := some (Val.prim "z") }).map
      (fun res => (res.1, preparesOf res.2, patchesOf res.2)) =
      .ok ([Val.prim "z"], [("0", Val.prim "z", true)],
           [{ op := "replace", path := "0", value := some (Val.prim "z") }]) := by
  refine ⟨?_, ?_, ?_, ?_⟩
  · exact (c4_apply_patch_routes_through_interception.1 pcId [Val.prim "a"] 1
      (Val.prim "x") "1" (by decide) (by decide) (by decide)).trans (by decide)
  · exact (c4_apply_patch_routes_through_interception.2.1 pcId [Val.prim "a"]
      (Val.prim "y")).trans (by decide)
  · exact (c4_apply_patch_routes_through_interception.2.2.1 pcId
      [Val.prim "a", Val.prim "b"] 0 "0" (by decide) (by decide) (by decide)).trans
      (by decide)
  · exact (c4_apply_patch_routes_through_interception.2.2.2 pcId [Val.prim "a"] 0
      (Val.prim "z") "0" (by decide) (by decide) (by decide)).trans (by decide)

/-- Witness for C10 at a concrete input: a `test` op on a non-writable one-element
target is silently ignored. -/
theorem c10_unknown_op_is_noop_witness :
    applyPatchLocally pcId false [Val.prim "a"] "0" { op := "test", path := "0" } =
      .ok ([Val.prim "a"], []) :=
  c10_unknown_op_is_noop pcId false [Val.prim "a"] "0" { op := "test", path := "0" }
    (by decide) (by decide) (by decide)

end MST
